import Mathlib

/-!
A shallow embedding of `src/shell.c` (a minimal interactive shell) and
proofs about it.

The C program has four functions:
  - `read_command_line` : prints a prompt, reads a line with `fgets`,
    strips the first newline, returns 0 on success and -1 on EOF or error;
  - `parse_command_line` : tokenizes the line buffer with
    `strtok(line, " ")`, storing at most `MAX_ARGS - 1` tokens and a
    terminating `NULL`, returning the token count;
  - `execute_command` : dispatches the built-ins `exit` and `help`, and
    otherwise forks, `execvp`s the command in the child and `waitpid`s in
    the parent;
  - `main` : the read-parse-execute loop, returning 0 when input ends.

C strings are modelled as `List Char`; the `NULL`-terminated argument
array is modelled as a `List (Option (List Char))` whose last element is
`none`.  Printed texts are modelled as `String` constants carried in the
result values.  The process-level behaviour (loop, fork/wait) is modelled
by explicit result and event types.
-/

namespace Shell

/-- MAX_ARGS from shell.c: maximum number of argument slots. -/
def MAX_ARGS : Nat := 10

/-- MAX_LINE_LENGTH from shell.c: size of the line buffer. -/
def MAX_LINE_LENGTH : Nat := 256

/-! ### Tokenizer: `parse_command_line`

`strtok(line, " ")` repeatedly skips runs of the delimiter and returns the
next maximal run of non-delimiter characters.  `tokensAux cs cur` walks the
buffer `cs` with `cur` holding the (reversed) characters of the token being
scanned; a token is emitted exactly when a nonempty run ends. -/

def tokensAux : List Char → List Char → List (List Char)
  | [], cur => if cur = [] then [] else [cur.reverse]
  | c :: cs, cur =>
    if c = ' ' then
      if cur = [] then tokensAux cs [] else cur.reverse :: tokensAux cs []
    else
      tokensAux cs (c :: cur)

/-- All tokens `strtok(line, " ")` would yield, in order. -/
def tokens (cs : List Char) : List (List Char) := tokensAux cs []

/-- `parse_command_line` from shell.c: stores at most `MAX_ARGS - 1` tokens
into `args`, puts `NULL` (here `none`) right after the last one, and
returns the argument count.  The result is the pair (args, arg_count). -/
def parse_command_line (line : List Char) : List (Option (List Char)) × Nat :=
  (((tokens line).take (MAX_ARGS - 1)).map Option.some ++ [Option.none],
   ((tokens line).take (MAX_ARGS - 1)).length)

/-! ### Line reader: `read_command_line`

`fgets` either returns the buffer (success), or `NULL` with `feof(stdin)`
set (end of input), or `NULL` with an error flag (I/O fault).  The three
outcomes of one `fgets` call are modelled by `FgetsResult`. -/

inductive FgetsResult where
  | ok (s : List Char)
  | eofHit
  | errHit
deriving DecidableEq

/-- The value `read_command_line` returns for each `fgets` outcome:
0 on success, -1 in the `feof` branch, -1 in the `perror` branch. -/
def read_status : FgetsResult → Int
  | FgetsResult.ok _ => 0
  | FgetsResult.eofHit => -1
  | FgetsResult.errHit => -1

/-- The newline stripping in `read_command_line`:
`line_buffer[strcspn(line_buffer, "\n")] = 0` truncates the buffer at the
first newline character. -/
def strip_newline (s : List Char) : List Char :=
  s.takeWhile (fun c => c ≠ '\n')

/-- The line contents `read_command_line` leaves in the buffer on success
(trailing newline removed); `none` when it returned -1. -/
def read_line_value : FgetsResult → Option (List Char)
  | FgetsResult.ok s => some (strip_newline s)
  | FgetsResult.eofHit => none
  | FgetsResult.errHit => none

/-- The diagnostic `read_command_line` prints in each non-success branch:
a farewell in the `feof` branch, and the `perror("fgets error")` prefix in
the error branch (`perror` appends the system error description). -/
def read_diag : FgetsResult → String
  | FgetsResult.ok _ => ""
  | FgetsResult.eofHit => "\nExiting shell...\n"
  | FgetsResult.errHit => "fgets error"

/-! ### Dispatcher / executor: `execute_command` and `display_help` -/

/-- The fixed text printed by `display_help` in shell.c (the nine
`printf` calls concatenated). -/
def help_text : String :=
  "--- Simple Shell Help ---\n" ++
  "Available built-in commands:\n" ++
  "  help   : Display this help message.\n" ++
  "  exit   : Terminate the shell.\n" ++
  "\n" ++
  "Other commands are executed via the system's PATH.\n" ++
  "Examples:\n" ++
  "  ls -l\n" ++
  "  echo Hello World\n" ++
  "-------------------------\n"

/-- The farewell line printed by the `exit` built-in. -/
def farewell_message : String := "Exiting simple_shell.\n"

/-- The observable action `execute_command` takes, as a value:
do nothing, call `exit(code)` after printing `farewell`, print the help
text and return, or fork/execvp/waitpid on the argument vector. -/
inductive CommandAction where
  | noOp
  | exitShell (farewell : String) (code : Nat)
  | showHelp (text : String)
  | runExternal (argv : List (Option (List Char)))
deriving DecidableEq

/-- `execute_command` from shell.c, as a map from the argument vector to
the action taken: `args[0] == NULL` is a no-op return; `"exit"` prints
the farewell and calls `exit(0)`; `"help"` calls `display_help` and
returns; anything else forks, runs `execvp(args[0], args)` in the child
and `waitpid`s in the parent. -/
def execute_command : List (Option (List Char)) → CommandAction
  | [] => CommandAction.noOp
  | Option.none :: _ => CommandAction.noOp
  | Option.some cmd :: rest =>
    if cmd = ("exit").toList then CommandAction.exitShell farewell_message 0
    else if cmd = ("help").toList then CommandAction.showHelp help_text
    else CommandAction.runExternal (Option.some cmd :: rest)

/-! ### Main loop

The loop body is: `read_command_line` (break out of the loop on -1),
`parse_command_line`, `execute_command`.  Standard input is modelled as
the list of lines `fgets` successfully delivers, followed by the reason
the stream ends (`feof` or error).  The shell process terminates either
by `main` returning (code 0) or by the `exit` built-in calling
`exit(0)`. -/

inductive StreamEnd where
  | eofEnd
  | errEnd
deriving DecidableEq

inductive ShellExit where
  | normalReturn (code : Nat)
  | builtinExit (code : Nat)
deriving DecidableEq

/-- The `while (1)` loop of `main`: reads each line, parses and executes
it; when `read_command_line` returns -1 (for either stream-end reason)
the loop breaks and `main` returns 0. -/
def shell_loop : List (List Char) → StreamEnd → ShellExit
  | [], _ => ShellExit.normalReturn 0
  | l :: rest, fin =>
    match execute_command (parse_command_line (strip_newline l)).1 with
    | CommandAction.exitShell _ code => ShellExit.builtinExit code
    | CommandAction.noOp => shell_loop rest fin
    | CommandAction.showHelp _ => shell_loop rest fin
    | CommandAction.runExternal _ => shell_loop rest fin

/-! ### Event trace of the loop

For the ordering claims, the loop is traced as a list of events: the
prompt printed by `read_command_line`, `fork` (with a fresh child id) and
`waitpid` on that same id in `execute_command`, and process termination
via the `exit` built-in.  `forkOk n` tells whether the n-th `fork` call
succeeds; on failure the code prints a diagnostic and returns to the loop
without spawning or waiting. -/

inductive Event where
  | prompt
  | spawn (pid : Nat)
  | waitFor (pid : Nat)
  | exitEvent
deriving DecidableEq

/-- The sequence of prompt/spawn/wait/exit events the shell performs on
the given input, starting with child counter `n`. -/
def shell_trace (forkOk : Nat → Bool) : List (List Char) → Nat → List Event
  | [], _ => [Event.prompt]
  | l :: rest, n =>
    Event.prompt ::
      (match execute_command (parse_command_line (strip_newline l)).1 with
       | CommandAction.noOp => shell_trace forkOk rest (n + 1)
       | CommandAction.exitShell _ _ => [Event.exitEvent]
       | CommandAction.showHelp _ => shell_trace forkOk rest (n + 1)
       | CommandAction.runExternal _ =>
         if forkOk n then
           Event.spawn n :: Event.waitFor n :: shell_trace forkOk rest (n + 1)
         else
           shell_trace forkOk rest (n + 1))

/-- Checks that every `spawn` in the trace is immediately followed by a
`waitFor` on the same child id. -/
def spawnsPaired : List Event → Bool
  | [] => true
  | Event.prompt :: rest => spawnsPaired rest
  | Event.exitEvent :: rest => spawnsPaired rest
  | Event.waitFor _ :: rest => spawnsPaired rest
  | Event.spawn _ :: [] => false
  | Event.spawn _ :: Event.prompt :: _ => false
  | Event.spawn _ :: Event.exitEvent :: _ => false
  | Event.spawn _ :: Event.spawn _ :: _ => false
  | Event.spawn p :: Event.waitFor q :: rest => p == q && spawnsPaired rest

/-- Checks that, starting with `n` children currently outstanding, the
trace never has a `spawn` while a child is already outstanding. -/
def outstandingOk : List Event → Nat → Bool
  | [], _ => true
  | Event.prompt :: rest, n => outstandingOk rest n
  | Event.exitEvent :: rest, n => outstandingOk rest n
  | Event.spawn _ :: rest, n => decide (n = 0) && outstandingOk rest (n + 1)
  | Event.waitFor _ :: rest, n => outstandingOk rest (n - 1)

/-! ### Helper notions for stating the tokenizer claims -/

/-- A word in the sense of the spec: a nonempty string of non-space
characters. -/
def IsWord (w : List Char) : Prop := w ≠ [] ∧ ∀ c ∈ w, c ≠ ' '

instance : DecidablePred IsWord := fun w =>
  inferInstanceAs (Decidable (w ≠ [] ∧ ∀ c ∈ w, c ≠ ' '))

/-- The line consisting of the given words separated by single spaces. -/
def joinWords : List (List Char) → List Char
  | [] => []
  | [w] => w
  | w :: v :: ws => w ++ ' ' :: joinWords (v :: ws)

/-! ### Tokenizer lemmas -/

theorem tokensAux_word (w : List Char) (hw : ∀ c ∈ w, c ≠ ' ') :
    ∀ rest cur, tokensAux (w ++ rest) cur = tokensAux rest (w.reverse ++ cur) := by
  induction w with
  | nil => intro rest cur; simp
  | cons c w ih =>
    intro rest cur
    have hc : c ≠ ' ' := hw c (List.mem_cons_self c w)
    have h1 : tokensAux ((c :: w) ++ rest) cur = tokensAux (w ++ rest) (c :: cur) := by
      simp [tokensAux, hc]
    rw [h1, ih (fun d hd => hw d (List.mem_cons_of_mem c hd)) rest (c :: cur)]
    simp

theorem tokens_joinWords :
    ∀ ws : List (List Char), (∀ w ∈ ws, IsWord w) → tokens (joinWords ws) = ws
  | [], _ => rfl
  | [w], h => by
    obtain ⟨hne, hsp⟩ : IsWord w := h w (List.mem_singleton.mpr rfl)
    show tokensAux (joinWords [w]) [] = [w]
    have hj : joinWords [w] = w ++ [] := by simp [joinWords]
    rw [hj, tokensAux_word w hsp [] []]
    have hrev : w.reverse ≠ [] := by simpa using hne
    simp [tokensAux, hrev]
  | w :: v :: ws, h => by
    obtain ⟨hne, hsp⟩ : IsWord w := h w (List.mem_cons_self w (v :: ws))
    have htail : ∀ u ∈ v :: ws, IsWord u := fun u hu => h u (List.mem_cons_of_mem w hu)
    show tokensAux (joinWords (w :: v :: ws)) [] = w :: v :: ws
    have hj : joinWords (w :: v :: ws) = w ++ ' ' :: joinWords (v :: ws) := rfl
    rw [hj, tokensAux_word w hsp (' ' :: joinWords (v :: ws)) []]
    have hrev : w.reverse ++ [] ≠ [] := by simpa using hne
    have hrec := tokens_joinWords (v :: ws) htail
    simp only [tokens] at hrec
    simp [tokensAux, hrev, hrec, hne]

/-- Every token the tokenizer produces is nonempty (strtok never returns
an empty token). -/
theorem tokensAux_ne_nil : ∀ (cs cur : List Char), ∀ t ∈ tokensAux cs cur, t ≠ [] := by
  intro cs
  induction cs with
  | nil =>
    intro cur t ht
    by_cases hcur : cur = []
    · simp [tokensAux, hcur] at ht
    · simp only [tokensAux, if_neg hcur, List.mem_singleton] at ht
      subst ht
      simpa using hcur
  | cons c cs ih =>
    intro cur t ht
    by_cases hc : c = ' '
    · by_cases hcur : cur = []
      · rw [tokensAux, if_pos hc, if_pos hcur] at ht
        exact ih [] t ht
      · rw [tokensAux, if_pos hc, if_neg hcur] at ht
        rcases List.mem_cons.mp ht with h1 | h2
        · subst h1; simpa using hcur
        · exact ih [] t h2
    · rw [tokensAux, if_neg hc] at ht
      exact ih (c :: cur) t ht

/-- A line of spaces only (or empty) yields no tokens. -/
theorem tokens_all_space : ∀ cs : List Char, (∀ c ∈ cs, c = ' ') → tokens cs = [] := by
  intro cs
  induction cs with
  | nil => intro _; rfl
  | cons c cs ih =>
    intro h
    have hc : c = ' ' := h c (List.mem_cons_self c cs)
    show tokensAux (c :: cs) [] = []
    rw [tokensAux, if_pos hc, if_pos rfl]
    exact ih fun d hd => h d (List.mem_cons_of_mem c hd)

/-! ### Helper lemmas about the argument vector and the dispatcher -/

theorem argv_get_terminator (ts : List (List Char)) :
    (ts.map Option.some ++ [Option.none])[ts.length]? = some Option.none := by
  induction ts with
  | nil => rfl
  | cons a ts ih => simp

theorem argv_take_no_none (ts : List (List Char)) :
    Option.none ∉ (ts.map Option.some ++ [Option.none]).take ts.length := by
  induction ts with
  | nil => simp
  | cons a ts ih => simp

theorem argv_length (ts : List (List Char)) :
    (ts.map Option.some ++ [Option.none]).length = ts.length + 1 := by
  simp

/-- The only `exitShell` action `execute_command` ever produces carries
the farewell message and exit code 0. -/
theorem execute_exit_code (args : List (Option (List Char))) (f : String) (c : Nat)
    (h : execute_command args = CommandAction.exitShell f c) :
    f = farewell_message ∧ c = 0 := by
  match args with
  | [] => exact absurd h (by simp [execute_command])
  | Option.none :: _ => exact absurd h (by simp [execute_command])
  | Option.some cmd :: rest =>
    simp only [execute_command] at h
    split at h
    · injection h with hf hc
      exact ⟨hf.symm, hc.symm⟩
    · split at h
      · exact absurd h (by simp)
      · exact absurd h (by simp)

/-! ### The claims -/

/-- C1: for every command line under the length limit consisting of
N ≤ 9 space-separated words, `parse_command_line` produces exactly the N
words as tokens, in order and textually unchanged, followed by the
terminating `NULL` marker, and returns the count N. -/
theorem claim_C1_tokenize_small (ws : List (List Char))
    (hw : ∀ w ∈ ws, IsWord w) (hn : ws.length ≤ 9)
    (_hcap : (joinWords ws).length < MAX_LINE_LENGTH) :
    parse_command_line (joinWords ws) =
      (ws.map Option.some ++ [Option.none], ws.length) := by
  unfold parse_command_line
  rw [tokens_joinWords ws hw]
  rw [List.take_of_length_le (by simpa [MAX_ARGS] using hn)]

theorem claim_C1_witness :
    ((∀ w ∈ [("ls").toList, ("-l").toList], IsWord w) ∧
     ([("ls").toList, ("-l").toList] : List (List Char)).length ≤ 9 ∧
     (joinWords [("ls").toList, ("-l").toList]).length < MAX_LINE_LENGTH) ∧
    parse_command_line (("ls -l").toList) =
      ([Option.some (("ls").toList), Option.some (("-l").toList), Option.none], 2) :=
  ⟨⟨by decide, by decide, by decide⟩, by
    have h := claim_C1_tokenize_small [("ls").toList, ("-l").toList]
      (by decide) (by decide) (by decide)
    exact (by decide : ("ls -l").toList = joinWords [("ls").toList, ("-l").toList]) ▸
      h.trans (by decide)⟩

/-- C3: for every line of more than 9 space-separated words,
`parse_command_line` keeps exactly the first 9 words as tokens and
silently drops the rest; the returned count is 9 and no error is
signalled. -/
theorem claim_C3_tokenize_overflow (ws : List (List Char))
    (hw : ∀ w ∈ ws, IsWord w) (hn : 9 < ws.length)
    (_hcap : (joinWords ws).length < MAX_LINE_LENGTH) :
    parse_command_line (joinWords ws) =
      ((ws.take 9).map Option.some ++ [Option.none], 9) := by
  unfold parse_command_line
  rw [tokens_joinWords ws hw]
  have h9 : MAX_ARGS - 1 = 9 := rfl
  rw [h9, List.length_take, Nat.min_eq_left (Nat.le_of_lt hn)]

theorem claim_C3_witness :
    ((∀ w ∈ [['a'], ['b'], ['c'], ['d'], ['e'], ['f'], ['g'], ['h'], ['i'], ['j']],
        IsWord w) ∧
     9 < ([['a'], ['b'], ['c'], ['d'], ['e'], ['f'], ['g'], ['h'], ['i'], ['j']] :
        List (List Char)).length ∧
     (joinWords [['a'], ['b'], ['c'], ['d'], ['e'], ['f'], ['g'], ['h'], ['i'], ['j']]).length <
        MAX_LINE_LENGTH) ∧
    parse_command_line (("a b c d e f g h i j").toList) =
      ([Option.some ['a'], Option.some ['b'], Option.some ['c'], Option.some ['d'],
        Option.some ['e'], Option.some ['f'], Option.some ['g'], Option.some ['h'],
        Option.some ['i'], Option.none], 9) :=
  ⟨⟨by decide, by decide, by decide⟩, by
    have h := claim_C3_tokenize_overflow
      [['a'], ['b'], ['c'], ['d'], ['e'], ['f'], ['g'], ['h'], ['i'], ['j']]
      (by decide) (by decide) (by decide)
    exact (by decide : ("a b c d e f g h i j").toList =
        joinWords [['a'], ['b'], ['c'], ['d'], ['e'], ['f'], ['g'], ['h'], ['i'], ['j']]) ▸
      h.trans (by decide)⟩

/-- C5: for every input line, the argument vector carries the `NULL`
terminator exactly at the index equal to the returned token count, no
entry before that index is the terminator, and nothing follows it, so
consumers can find the end of the vector without the count. -/
theorem claim_C5_terminator (line : List Char) :
    (parse_command_line line).1[(parse_command_line line).2]? = some Option.none ∧
    Option.none ∉ (parse_command_line line).1.take (parse_command_line line).2 ∧
    (parse_command_line line).1.length = (parse_command_line line).2 + 1 :=
  ⟨argv_get_terminator ((tokens line).take (MAX_ARGS - 1)),
   argv_take_no_none ((tokens line).take (MAX_ARGS - 1)),
   argv_length ((tokens line).take (MAX_ARGS - 1))⟩

theorem claim_C5_witness :
    (parse_command_line (("ls -l").toList)).1[(parse_command_line (("ls -l").toList)).2]? =
      some Option.none ∧
    Option.none ∉
      (parse_command_line (("ls -l").toList)).1.take (parse_command_line (("ls -l").toList)).2 ∧
    (parse_command_line (("ls -l").toList)).1.length =
      (parse_command_line (("ls -l").toList)).2 + 1 :=
  claim_C5_terminator (("ls -l").toList)

/-- C6: a line that is empty or all spaces parses to zero tokens (the
vector is just the terminator), and `execute_command` on that vector is a
no-op: no output, no child process, no state change, no error. -/
theorem claim_C6_empty_line (line : List Char) (h : ∀ c ∈ line, c = ' ') :
    parse_command_line line = ([Option.none], 0) ∧
    execute_command (parse_command_line line).1 = CommandAction.noOp := by
  have ht : tokens line = [] := tokens_all_space line h
  constructor
  · unfold parse_command_line
    rw [ht]
    rfl
  · unfold parse_command_line
    rw [ht]
    rfl

theorem claim_C6_witness :
    (∀ c ∈ [' ', ' ', ' '], c = ' ') ∧
    (parse_command_line [' ', ' ', ' '] = ([Option.none], 0) ∧
     execute_command (parse_command_line [' ', ' ', ' ']).1 = CommandAction.noOp) :=
  ⟨by decide, claim_C6_empty_line [' ', ' ', ' '] (by decide)⟩

/-- C10: every token stored in the argument vector is nonempty — strtok
skips delimiter runs, so leading, trailing or repeated spaces never yield
an empty token; in particular `args[0]`, when present, is a nonempty
command name. -/
theorem claim_C10_tokens_nonempty (line : List Char) (t : List Char)
    (h : Option.some t ∈ (parse_command_line line).1) : t ≠ [] := by
  have h2 : Option.some t ∈
      ((tokens line).take (MAX_ARGS - 1)).map Option.some ++ [Option.none] := h
  rw [List.mem_append] at h2
  rcases h2 with h3 | h4
  · rw [List.mem_map] at h3
    obtain ⟨u, hu, he⟩ := h3
    have hut : u = t := by injection he
    subst hut
    exact tokensAux_ne_nil line [] u (List.mem_of_mem_take hu)
  · simp at h4

theorem claim_C10_witness :
    (Option.some (("ls").toList) ∈ (parse_command_line (("  ls  ").toList)).1) ∧
    ("ls").toList ≠ [] :=
  ⟨by decide, claim_C10_tokens_nonempty (("  ls  ").toList) (("ls").toList) (by decide)⟩

/-- C2 counterexample: `read_command_line` returns the very same status
value (-1) when `fgets` hits end-of-input as when it hits an I/O error,
so the two cases are not distinguishable from the returned value — the
claim that the two statuses are distinct is false. -/
theorem claim_C2_counterexample :
    read_status FgetsResult.eofHit = read_status FgetsResult.errHit := rfl

/-- C2 amended: `read_command_line` returns -1 both on end-of-input and
on an I/O error — a status distinct from the 0 it returns on success, but
identical between the two failure cases; the caller cannot tell them
apart from the returned value.  The two cases differ only in the
diagnostic printed before returning. -/
theorem claim_C2_amended :
    read_status FgetsResult.eofHit = -1 ∧
    read_status FgetsResult.errHit = -1 ∧
    (∀ s, read_status (FgetsResult.ok s) = 0) ∧
    read_diag FgetsResult.eofHit ≠ read_diag FgetsResult.errHit :=
  ⟨rfl, rfl, fun _ => rfl, by decide⟩

/-- C4: on any argument vector whose first token is exactly "exit",
`execute_command` prints the farewell message and terminates the whole
process via `exit(0)` — exit code 0 and no return to the loop — no matter
what trailing arguments follow. -/
theorem claim_C4_exit_builtin (rest : List (Option (List Char))) :
    execute_command (Option.some (("exit").toList) :: rest) =
      CommandAction.exitShell farewell_message 0 := rfl

/-- C7: on any argument vector whose first token is exactly "help",
`execute_command` prints the one fixed help text and reports the command
handled; every argument after the first token is ignored, so "help foo"
acts exactly like plain "help". -/
theorem claim_C7_help_builtin (rest : List (Option (List Char))) :
    execute_command (Option.some (("help").toList) :: rest) =
      CommandAction.showHelp help_text ∧
    execute_command (Option.some (("help").toList) :: rest) =
      execute_command [Option.some (("help").toList), Option.none] :=
  ⟨rfl, rfl⟩

/-- C8: whenever the shell terminates other than through the `exit`
built-in's own `exit(0)`, `main` returns 0 — and this is the same whether
the input stream ended in end-of-file or in an I/O fault: the loop treats
the two stream-end reasons identically. -/
theorem claim_C8_exit_code_zero (lines : List (List Char)) (fin : StreamEnd) :
    (shell_loop lines fin = ShellExit.normalReturn 0 ∨
     shell_loop lines fin = ShellExit.builtinExit 0) ∧
    shell_loop lines StreamEnd.eofEnd = shell_loop lines StreamEnd.errEnd := by
  induction lines with
  | nil => exact ⟨Or.inl rfl, rfl⟩
  | cons l rest ih =>
    have step : ∀ g : StreamEnd, shell_loop (l :: rest) g =
        match execute_command (parse_command_line (strip_newline l)).1 with
        | CommandAction.exitShell _ code => ShellExit.builtinExit code
        | CommandAction.noOp => shell_loop rest g
        | CommandAction.showHelp _ => shell_loop rest g
        | CommandAction.runExternal _ => shell_loop rest g := fun _ => rfl
    cases h : execute_command (parse_command_line (strip_newline l)).1 with
    | exitShell f c =>
      obtain ⟨-, rfl⟩ := execute_exit_code _ f c h
      refine ⟨Or.inr ?_, ?_⟩ <;> simp [step, h]
    | noOp =>
      refine ⟨?_, ?_⟩
      · rw [step fin]
        simpa [h] using ih.1
      · rw [step StreamEnd.eofEnd, step StreamEnd.errEnd]
        simpa [h] using ih.2
    | showHelp t =>
      refine ⟨?_, ?_⟩
      · rw [step fin]
        simpa [h] using ih.1
      · rw [step StreamEnd.eofEnd, step StreamEnd.errEnd]
        simpa [h] using ih.2
    | runExternal a =>
      refine ⟨?_, ?_⟩
      · rw [step fin]
        simpa [h] using ih.1
      · rw [step StreamEnd.eofEnd, step StreamEnd.errEnd]
        simpa [h] using ih.2

/-- C9: in every trace of the shell, each `fork` is immediately followed
by a `waitpid` on that same child before anything else happens — in
particular before the next prompt — so each external command is fully
resolved before the next iteration and no second child is ever
outstanding. -/
theorem claim_C9_synchronous_wait (forkOk : Nat → Bool) (lines : List (List Char)) (n : Nat) :
    spawnsPaired (shell_trace forkOk lines n) = true ∧
    outstandingOk (shell_trace forkOk lines n) 0 = true := by
  induction lines generalizing n with
  | nil => exact ⟨rfl, rfl⟩
  | cons l rest ih =>
    cases h : execute_command (parse_command_line (strip_newline l)).1 with
    | exitShell f c =>
      constructor <;> simp [shell_trace, h, spawnsPaired, outstandingOk]
    | noOp =>
      refine ⟨?_, ?_⟩
      · simpa [shell_trace, h, spawnsPaired] using (ih (n + 1)).1
      · simpa [shell_trace, h, outstandingOk] using (ih (n + 1)).2
    | showHelp t =>
      refine ⟨?_, ?_⟩
      · simpa [shell_trace, h, spawnsPaired] using (ih (n + 1)).1
      · simpa [shell_trace, h, outstandingOk] using (ih (n + 1)).2
    | runExternal a =>
      by_cases hf : forkOk n
      · have e : shell_trace forkOk (l :: rest) n =
            Event.prompt :: Event.spawn n :: Event.waitFor n ::
              shell_trace forkOk rest (n + 1) := by
          simp [shell_trace, h, hf]
        rw [e]
        refine ⟨?_, ?_⟩
        · simpa [spawnsPaired] using (ih (n + 1)).1
        · simpa [outstandingOk] using (ih (n + 1)).2
      · have e : shell_trace forkOk (l :: rest) n =
            Event.prompt :: shell_trace forkOk rest (n + 1) := by
          simp [shell_trace, h, hf]
        rw [e]
        refine ⟨?_, ?_⟩
        · simpa [spawnsPaired] using (ih (n + 1)).1
        · simpa [outstandingOk] using (ih (n + 1)).2

end Shell
